import Mathlib

/-!
Verification of the strafes-globals sync engine.

The definitions below are a shallow embedding of the TypeScript source
(the WR/maps synchronisation job).  Pure data is embedded as Lean
structures; the HTTP world is an explicit parameter (a function from page
number to an optional response, `none` being the soft-failure marker the
code's `tryGetRequest` produces); the MySQL tables are explicit lists and
each SQL statement is embedded by its documented row-level semantics.
The asynchronous `loadAllWRs` loop is embedded as a fuel-indexed state
transformer; one unit of fuel is one iteration of the `while` loop.
-/

/-- A raw world-record entry as returned by the strafes API
(`record.id`, `record.user.id`, ... in the source). -/
structure RawRecord where
  id : Nat
  user_id : Nat
  username : String
  map_id : Nat
  game_id : Nat
  style_id : Nat
  mode_id : Nat
  date : Nat
  time : Nat
deriving DecidableEq, Repr

/-- The `Record` interface of the source (a parsed WR row). -/
structure Record where
  timeId : Nat
  userId : Nat
  username : String
  mapId : Nat
  game : Nat
  style : Nat
  course : Nat
  date : Nat
  time : Nat
deriving DecidableEq, Repr

/-- The field-by-field translation the source performs when it pushes a
raw API record onto `wrs` (`timeId: record.id, userId: record.user.id, ...`). -/
def RawRecord.toRec (r : RawRecord) : Record :=
  { timeId := r.id, userId := r.user_id, username := r.username,
    mapId := r.map_id, game := r.game_id, style := r.style_id,
    course := r.mode_id, date := r.date, time := r.time }

/-- One HTTP response of the WR endpoint: the optional
`x-rate-limit-burst` header (present and numeric, else `none`) and the
`data` array. -/
structure Response where
  burstHeader : Option Nat
  data : List RawRecord
deriving DecidableEq, Repr

/-- `tryGetRequest`: wraps a network call, catching any error and
returning the explicit no-result marker `none` instead (the source's
`catch (err) { console.log(err); return undefined; }`). -/
def tryGetRequest (net : Nat → Except String Response) (page : Nat) : Option Response :=
  match net page with
  | Except.ok r => some r
  | Except.error _ => none

/-! ### The dedup-by-identifier fold

The source repeats one pattern four times (WR records in `loadAllWRs`
and in `refreshWRs`, map ids in `wrsHaveMapsLoaded`, user rows in
`insertUsers`): iterate a list, skip elements whose key is already in a
`Set`, otherwise add the key to the set and push a derived value.  We
embed the pattern once, parameterised by the key and the pushed value. -/

/-- One step of the seen-set dedup loop: `if (seen.has(key x)) continue;
seen.add(key x); out.push(emb x);`. -/
def dedupFold {α β : Type} (key : α → Nat) (emb : α → β)
    (acc : List β × List Nat) (x : α) : List β × List Nat :=
  if key x ∈ acc.2 then acc else (acc.1 ++ [emb x], acc.2 ++ [key x])

/-- Keeping only the first occurrence of each key, in arrival order: the
reference description of the dedup loops ("retain only the first
occurrence of each identifier, in arrival order"). -/
def firstByKey {α : Type} (key : α → Nat) : List α → List α
  | [] => []
  | x :: rest =>
      x :: firstByKey key (rest.filter fun y => decide (key y ≠ key x))
termination_by l => l.length
decreasing_by
  simp only [List.length_cons]
  exact Nat.lt_succ_of_le (List.length_filter_le _ _)

/-! ### The concurrent pagination driver (`loadAllWRs`) -/

/-- The mutable state of `loadAllWRs`, plus two observation logs that
record the loop's externally visible actions: `sleeps` counts executed
cooldown pauses, `requested` logs every page number handed to the
fetcher, in issue order. -/
structure LoadState where
  wrs : List Record
  timeIds : List Nat
  burstRemaining : Nat
  page : Nat
  hasMore : Bool
  sleeps : Nat
  requested : List Nat
deriving DecidableEq, Repr

/-- `wrs = []; timeIds = new Set(); burstRemaining = 999; page = 1;
hasMore = true`. -/
def initState : LoadState :=
  { wrs := [], timeIds := [], burstRemaining := 999, page := 1,
    hasMore := true, sleeps := 0, requested := [] }

/-- The loop body run for one resolved response: skip a failed fetch;
otherwise take the burst header into the running minimum, and either
flag exhaustion on an empty page or dedup-push its records. -/
def processResponse (s : LoadState) (resp : Option Response) : LoadState :=
  match resp with
  | none => s
  | some r =>
    let s1 := match r.burstHeader with
      | some n => if n < s.burstRemaining then { s with burstRemaining := n } else s
      | none => s
    if r.data.length ≤ 0 then { s1 with hasMore := false }
    else
      let p := r.data.foldl (dedupFold RawRecord.id RawRecord.toRec) (s1.wrs, s1.timeIds)
      { s1 with wrs := p.1, timeIds := p.2 }

/-- The five page numbers of one burst (`page + i` for `i = 0..4`). -/
def burstPages (page : Nat) : List Nat :=
  (List.range 5).map (fun i => page + i)

/-- One iteration of the `while (hasMore)` loop: issue the burst, advance
the cursor by 5 before anything resolves, drain the five responses in
order, and, unless exhausted, sleep and reset the tracker when the
running burst minimum fell below 70. -/
def doRound (source : Nat → Option Response) (s : LoadState) : LoadState :=
  let pages := burstPages s.page
  let responses := pages.map source
  let s1 := { s with page := s.page + 5, requested := s.requested ++ pages }
  let s2 := responses.foldl processResponse s1
  if !s2.hasMore then s2
  else if s2.burstRemaining < 70 then
    { s2 with burstRemaining := 999, sleeps := s2.sleeps + 1 }
  else s2

/-- The loop, fuel-indexed: `none` only when the fuel runs out before the
exhaustion signal. -/
def loadAllWRsAux (source : Nat → Option Response) : Nat → LoadState → Option LoadState
  | 0, s => if s.hasMore then none else some s
  | fuel + 1, s =>
      if s.hasMore then loadAllWRsAux source fuel (doRound source s) else some s

/-- `loadAllWRs`: run the pagination loop from the initial state and
return the collected deduplicated batch. -/
def loadAllWRs (source : Nat → Option Response) (fuel : Nat) : Option (List Record) :=
  (loadAllWRsAux source fuel initState).map LoadState.wrs

/-- The record payload a driver sees in an optional response (a failed
fetch contributes nothing). -/
def respData : Option Response → List RawRecord
  | none => []
  | some r => r.data

/-- Whether a response leaves `hasMore` standing: only a successful fetch
with an empty `data` array signals exhaustion. -/
def respAlive : Option Response → Bool
  | none => true
  | some r => decide (¬ r.data.length ≤ 0)

/-- The concatenated payload of pages `a, a+1, ..., a+n-1`. -/
def upTo (source : Nat → Option Response) (a n : Nat) : List RawRecord :=
  ((List.range' a n).map (fun p => respData (source p))).flatten

/-- The concatenated payload of one burst. -/
def roundData (source : Nat → Option Response) (page : Nat) : List RawRecord :=
  ((burstPages page).map (fun p => respData (source p))).flatten

/-- Whether a whole burst leaves `hasMore` standing. -/
def roundAlive (source : Nat → Option Response) (page : Nat) : Bool :=
  (burstPages page).all (fun p => respAlive (source p))

/-- The burst-capacity headers reported across one burst's responses. -/
def roundHeaders (source : Nat → Option Response) (page : Nat) : List Nat :=
  ((burstPages page).map source).filterMap (fun o => o.bind Response.burstHeader)

/-- A page source whose every page succeeds with an empty payload. -/
def sourceEmpty : Nat → Option Response := fun _ => some { burstHeader := none, data := [] }

/-- A sample raw record. -/
def sampleRaw : RawRecord :=
  { id := 42, user_id := 7, username := "alice", map_id := 3,
    game_id := 1, style_id := 2, mode_id := 0, date := 100, time := 5000 }

/-- A page source reporting a burst capacity of 10 on every page. -/
def sourceLow : Nat → Option Response :=
  fun _ => some { burstHeader := some 10, data := [sampleRaw] }

/-- A page source with an empty page 2 and non-empty pages elsewhere. -/
def sourceDrain : Nat → Option Response :=
  fun p => if p = 2 then some { burstHeader := none, data := [] }
           else some { burstHeader := none, data := [sampleRaw] }

/-- A second sample raw record with a different identity. -/
def sampleRaw2 : RawRecord :=
  { id := 43, user_id := 8, username := "bob", map_id := 4,
    game_id := 1, style_id := 2, mode_id := 0, date := 101, time := 6000 }

/-- A source that is exhausted from page 3 on, with distinct records on
pages 1 and 2. -/
def sourceTwoPages : Nat → Option Response :=
  fun p =>
    if p = 1 then some { burstHeader := none, data := [sampleRaw] }
    else if p = 2 then some { burstHeader := none, data := [sampleRaw2] }
    else some { burstHeader := none, data := [] }

/-! ### The deduplicator as a standalone batch operation -/

/-- The record-dedup loop of `refreshWRs` (and of `loadAllWRs` when it
starts from an empty seen-set): first occurrence per `timeId`, translated
to `Record`. -/
def dedupRecords (data : List RawRecord) : List Record :=
  (data.foldl (dedupFold RawRecord.id RawRecord.toRec) ([], [])).1

/-- A row of the `users` table. -/
structure UserRow where
  userId : Nat
  username : String
deriving DecidableEq, Repr

/-- The distinct `(userId, username)` rows `insertUsers` builds from a
record batch before handing them to the SQL upsert: one row per first
occurrence of each `userId`. -/
def userRowsOf (wrs : List Record) : List UserRow :=
  (wrs.foldl (dedupFold Record.userId
    (fun r => { userId := r.userId, username := r.username })) ([], [])).1

/-! ### The maps catalog pipeline and the relational store -/

/-- A raw map object from the maps API (`map.id`, `map.display_name`,
...); `thumbnail` is the optional thumbnail asset id. -/
structure RawMap where
  id : Nat
  display_name : String
  creator : String
  game_id : Nat
  date : Nat
  created_at : Nat
  updated_at : Nat
  submitter : Nat
  thumbnail : Option Nat
  asset_version : Nat
  load_count : Nat
  modes : Nat
deriving DecidableEq, Repr

/-- One page of the maps endpoint. -/
structure MapsResponse where
  data : List RawMap
deriving DecidableEq, Repr

/-- One entry of a thumbnail batch response (`targetId`, `imageUrl`). -/
structure ThumbInfo where
  targetId : Nat
  imageUrl : String
deriving DecidableEq, Repr

/-- The `StrafesMap` interface of the source: a row of the `maps` table. -/
structure MapRow where
  id : Nat
  name : String
  creator : String
  game : Nat
  date : Nat
  createdAt : Nat
  updatedAt : Nat
  submitter : Nat
  smallThumb : Option String
  largeThumb : Option String
  assetVersion : Nat
  loadCount : Nat
  modes : Nat
deriving DecidableEq, Repr

/-- JS truthiness of `map.thumbnail` (`if (map.thumbnail)`): defined and
non-zero. -/
def optNatTruthy : Option Nat → Bool
  | none => false
  | some n => n != 0

/-- Lookup in the `assetToThumb` map built from one thumbnail batch
response: the last entry for a target wins (later `Map.set` calls
overwrite earlier ones); a failed batch request resolves no URL. -/
def thumbLookup (resp : Option (List ThumbInfo)) (assetId : Nat) : Option String :=
  match resp with
  | none => none
  | some infos =>
      (infos.reverse.find? (fun t => t.targetId == assetId)).map ThumbInfo.imageUrl

/-- The per-page body of `loadMaps`: collect the truthy asset ids, issue
the large and small thumbnail batch lookups, and build the `StrafesMap`
rows with the resolved URLs (absent when the lookup failed). -/
def buildMapRows (largeSrc smallSrc : List Nat → Option (List ThumbInfo))
    (data : List RawMap) : List MapRow :=
  let assetIds := (data.filter (fun m => optNatTruthy m.thumbnail)).map
    (fun m => m.thumbnail.getD 0)
  let largeReq := largeSrc assetIds
  let smallReq := smallSrc assetIds
  data.map (fun m =>
    let small := if optNatTruthy m.thumbnail then thumbLookup smallReq (m.thumbnail.getD 0)
                 else none
    let large := if optNatTruthy m.thumbnail then thumbLookup largeReq (m.thumbnail.getD 0)
                 else none
    { id := m.id, name := m.display_name, creator := m.creator, game := m.game_id,
      date := m.date, createdAt := m.created_at, updatedAt := m.updated_at,
      submitter := m.submitter, smallThumb := small, largeThumb := large,
      assetVersion := m.asset_version, loadCount := m.load_count, modes := m.modes })

/-- The `while (true)` pagination of `loadMaps`, fuel-indexed.  A failed
page fetch makes the whole call return the EMPTY ARRAY (`return [];`,
discarding pages already collected); an empty page or a short page ends
the loop with the accumulated rows. -/
def loadMapsAux (mapSrc : Nat → Option MapsResponse)
    (largeSrc smallSrc : List Nat → Option (List ThumbInfo)) :
    Nat → Nat → List MapRow → Option (List MapRow)
  | 0, _, _ => none
  | fuel + 1, page, acc =>
    match mapSrc page with
    | none => some []
    | some resp =>
      if resp.data.length < 1 then some acc
      else
        let acc2 := acc ++ buildMapRows largeSrc smallSrc resp.data
        if resp.data.length < 100 then some acc2
        else loadMapsAux mapSrc largeSrc smallSrc fuel (page + 1) acc2

/-- `loadMaps`: run the catalog pagination from page 1.  `none` only for
fuel exhaustion; every code path of the source returns an array. -/
def loadMaps (mapSrc : Nat → Option MapsResponse)
    (largeSrc smallSrc : List Nat → Option (List ThumbInfo))
    (fuel : Nat) : Option (List MapRow) :=
  loadMapsAux mapSrc largeSrc smallSrc fuel 1 []

/-- The three tables of the `strafes_globals` database. -/
structure Db where
  users : List UserRow
  maps : List MapRow
  globals : List Record
deriving DecidableEq, Repr

/-- The unique index `(map_id, game, style, course)` of the globals
table. -/
def mapKey (r : Record) : Nat × Nat × Nat × Nat :=
  (r.mapId, r.game, r.style, r.course)

/-- Row semantics of `INSERT INTO users ... ON DUPLICATE KEY UPDATE
username=new.username`: a row with the same primary key gets its username
overwritten, otherwise the new row is appended. -/
def upsertUserRow (tbl : List UserRow) (u : UserRow) : List UserRow :=
  if tbl.any (fun v => v.userId == u.userId) then
    tbl.map (fun v => if v.userId == u.userId
      then { userId := v.userId, username := u.username } else v)
  else tbl ++ [u]

/-- The users upsert statement over a list of value rows. -/
def upsertUsers (tbl : List UserRow) (rows : List UserRow) : List UserRow :=
  rows.foldl upsertUserRow tbl

/-- `insertUsers`: derive the distinct user rows of the batch and upsert
them into the users table. -/
def insertUsers (users : List UserRow) (wrs : List Record) : List UserRow :=
  upsertUsers users (userRowsOf wrs)

/-- Row semantics of the globals upsert (`INSERT ... ON DUPLICATE KEY
UPDATE` listing every column): a row conflicting on the primary key
`time_id` — or, failing that, on the unique index
`(map_id, game, style, course)` — is overwritten wholesale with the
incoming values; otherwise the row is appended. -/
def upsertGlobalRow (tbl : List Record) (r : Record) : List Record :=
  if tbl.any (fun g => g.timeId == r.timeId) then
    tbl.map (fun g => if g.timeId == r.timeId then r else g)
  else if tbl.any (fun g => decide (mapKey g = mapKey r)) then
    tbl.map (fun g => if mapKey g = mapKey r then r else g)
  else tbl ++ [r]

/-- The globals upsert statement over a batch of rows. -/
def upsertGlobals (tbl : List Record) (rows : List Record) : List Record :=
  rows.foldl upsertGlobalRow tbl

/-- The distinct map ids of a batch, first occurrence order (the
`mapIdSet` loop of `wrsHaveMapsLoaded`). -/
def distinctMapIds (wrs : List Record) : List Nat :=
  (wrs.foldl (dedupFold Record.mapId Record.mapId) ([], [])).1

/-- `wrsHaveMapsLoaded`: `SELECT map_id FROM maps WHERE map_id IN (...)`
and compare the returned row count with the number of distinct batch map
ids. -/
def wrsHaveMapsLoaded (maps : List MapRow) (wrs : List Record) : Bool :=
  let mapIds := distinctMapIds wrs
  let rows := maps.filter (fun m => mapIds.contains m.id)
  rows.length == mapIds.length

/-- JS truthiness of an array value: always true.  This embeds the dead
`if (!maps) return false;` check of `updateMaps` — `loadMaps` returns an
array on every path, including `[]` on a failed fetch, and `![]` is
false in JS. -/
def jsArrayTruthy (_m : List MapRow) : Bool := true

/-- `updateMaps`: fetch the catalog, run the (dead) falsy check, then
`TRUNCATE maps` and bulk-insert the fetched rows. -/
def updateMaps (db : Db) (mapSrc : Nat → Option MapsResponse)
    (largeSrc smallSrc : List Nat → Option (List ThumbInfo))
    (mapFuel : Nat) : Option (Bool × Db) :=
  match loadMaps mapSrc largeSrc smallSrc mapFuel with
  | none => none
  | some maps =>
    if jsArrayTruthy maps = false then some (false, db)
    else some (true, { db with maps := maps })

/-- `refreshWRs`: fetch page 1 of the WR endpoint (a soft failure makes
the run report failure), dedup, upsert the referenced users, ensure the
referenced maps are loaded (refreshing the catalog when the check
fails), then upsert the record batch. -/
def refreshWRs (db : Db) (wrSource : Nat → Option Response)
    (mapSrc : Nat → Option MapsResponse)
    (largeSrc smallSrc : List Nat → Option (List ThumbInfo))
    (mapFuel : Nat) : Option (Bool × Db) :=
  match wrSource 1 with
  | none => some (false, db)
  | some response =>
    let wrs := dedupRecords response.data
    let db1 := { db with users := insertUsers db.users wrs }
    if wrsHaveMapsLoaded db1.maps wrs then
      some (true, { db1 with globals := upsertGlobals db1.globals wrs })
    else
      match updateMaps db1 mapSrc largeSrc smallSrc mapFuel with
      | none => none
      | some (false, db2) => some (false, db2)
      | some (true, db2) =>
          some (true, { db2 with globals := upsertGlobals db2.globals wrs })

/-- `seedWRs`: refresh the map catalog, download the full WR list,
upsert the referenced users, then `TRUNCATE TABLE globals` and
bulk-insert the batch. -/
def seedWRs (db : Db) (wrSource : Nat → Option Response) (wrFuel : Nat)
    (mapSrc : Nat → Option MapsResponse)
    (largeSrc smallSrc : List Nat → Option (List ThumbInfo))
    (mapFuel : Nat) : Option (Bool × Db) :=
  match updateMaps db mapSrc largeSrc smallSrc mapFuel with
  | none => none
  | some (false, db1) => some (false, db1)
  | some (true, db1) =>
    match loadAllWRs wrSource wrFuel with
    | none => none
    | some wrs =>
      let db2 := { db1 with users := insertUsers db1.users wrs }
      some (true, { db2 with globals := wrs })

/-! ### Failure propagation -/

/-- A network that fails every request. -/
def netFail : Nat → Except String Response := fun _ => Except.error "timeout"

/-- A fresh, empty database. -/
def emptyDb : Db := { users := [], maps := [], globals := [] }

/-- A maps source whose every page fetch soft-fails. -/
def mapSrcNone : Nat → Option MapsResponse := fun _ => none

/-- A thumbnail service whose every batch lookup soft-fails. -/
def thumbNone : List Nat → Option (List ThumbInfo) := fun _ => none

/-- A record referencing map id 99. -/
def rawRecord99 : RawRecord := { sampleRaw with map_id := 99 }

/-- A WR source whose page 1 carries the record referencing map 99. -/
def wrSource99 : Nat → Option Response :=
  fun _ => some { burstHeader := none, data := [rawRecord99] }

/-- A catalog row for map id 3. -/
def mapRow3 : MapRow :=
  { id := 3, name := "m", creator := "c", game := 1, date := 0, createdAt := 0,
    updatedAt := 0, submitter := 0, smallThumb := none, largeThumb := none,
    assetVersion := 0, loadCount := 0, modes := 1 }

/-- A database already holding the catalog row for map 3. -/
def dbWithMap3 : Db := { users := [], maps := [mapRow3], globals := [] }

/-- A WR source whose page 1 is the single sample record (map id 3). -/
def wrSourceOne : Nat → Option Response :=
  fun _ => some { burstHeader := none, data := [sampleRaw] }

/-- The database produced by the first concrete seed run. -/
def seedDb1 : Db :=
  { users := [⟨7, "alice"⟩, ⟨8, "bob"⟩], maps := [],
    globals := [sampleRaw.toRec, sampleRaw2.toRec] }

/-- The database produced by the first concrete refresh run. -/
def refDb1 : Db :=
  { users := [⟨7, "alice"⟩], maps := [mapRow3], globals := [sampleRaw.toRec] }

namespace DedupFold

variable {α β : Type} (key : α → Nat) (emb : α → β)

theorem snd_mono : ∀ (L : List α) (w : List β) (ids : List Nat) (k : Nat),
    k ∈ ids → k ∈ (L.foldl (dedupFold key emb) (w, ids)).2 := by
  intro L
  induction L with
  | nil => intro w ids k hk; simpa using hk
  | cons x rest ih =>
    intro w ids k hk
    simp only [List.foldl_cons]
    unfold dedupFold
    split
    · exact ih w ids k hk
    · exact ih _ _ k (by simp [hk])

theorem fst_mono : ∀ (L : List α) (w : List β) (ids : List Nat) (b : β),
    b ∈ w → b ∈ (L.foldl (dedupFold key emb) (w, ids)).1 := by
  intro L
  induction L with
  | nil => intro w ids b hb; simpa using hb
  | cons x rest ih =>
    intro w ids b hb
    simp only [List.foldl_cons]
    unfold dedupFold
    split
    · exact ih w ids b hb
    · exact ih _ _ b (by simp [hb])

theorem key_mem : ∀ (L : List α) (w : List β) (ids : List Nat) (x : α),
    x ∈ L → key x ∈ (L.foldl (dedupFold key emb) (w, ids)).2 := by
  intro L
  induction L with
  | nil => intro w ids x hx; simp at hx
  | cons y rest ih =>
    intro w ids x hx
    simp only [List.foldl_cons]
    rcases List.mem_cons.1 hx with h | h
    · subst h
      unfold dedupFold
      split
      · exact snd_mono key emb rest w ids _ (by assumption)
      · exact snd_mono key emb rest _ _ _ (by simp)
    · unfold dedupFold
      split
      · exact ih w ids x h
      · exact ih _ _ x h

theorem snd_nodup : ∀ (L : List α) (w : List β) (ids : List Nat),
    ids.Nodup → (L.foldl (dedupFold key emb) (w, ids)).2.Nodup := by
  intro L
  induction L with
  | nil => intro w ids h; simpa using h
  | cons x rest ih =>
    intro w ids h
    simp only [List.foldl_cons]
    unfold dedupFold
    split
    · exact ih w ids h
    · refine ih _ _ ?_
      simp only [List.nodup_append, List.nodup_cons, List.nodup_nil]
      refine ⟨h, by simp, ?_⟩
      intro a ha
      simp only [List.mem_singleton]
      rintro rfl
      exact absurd ha (by assumption)

theorem snd_tracks (keyb : β → Nat) (hke : ∀ x, keyb (emb x) = key x) :
    ∀ (L : List α) (w : List β) (ids : List Nat),
    ids = w.map keyb →
    (L.foldl (dedupFold key emb) (w, ids)).2
      = (L.foldl (dedupFold key emb) (w, ids)).1.map keyb := by
  intro L
  induction L with
  | nil => intro w ids h; simpa using h
  | cons x rest ih =>
    intro w ids h
    simp only [List.foldl_cons]
    unfold dedupFold
    split
    · exact ih w ids h
    · exact ih _ _ (by simp [h, hke])

/-- The first occurrence of a key is the one kept: if `x` is preceded only
by elements with different keys, and its key is not already seen, then
`emb x` ends up in the output. -/
theorem mem_first : ∀ (xs : List α) (ys : List α) (x : α) (w : List β) (ids : List Nat),
    key x ∉ ids → (∀ y ∈ xs, key y ≠ key x) →
    emb x ∈ ((xs ++ x :: ys).foldl (dedupFold key emb) (w, ids)).1 := by
  intro xs
  induction xs with
  | nil =>
    intro ys x w ids hid _
    simp only [List.nil_append, List.foldl_cons]
    unfold dedupFold
    split
    · exact absurd (by assumption) hid
    · exact fst_mono key emb ys _ _ _ (by simp)
  | cons y rest ih =>
    intro ys x w ids hid hks
    simp only [List.cons_append, List.foldl_cons]
    unfold dedupFold
    split
    · exact ih ys x w ids hid (fun z hz => hks z (by simp [hz]))
    · refine ih ys x _ _ ?_ (fun z hz => hks z (by simp [hz]))
      simp only [List.mem_append, List.mem_singleton]
      rintro (h | h)
      · exact hid h
      · exact hks y (by simp) h.symm

/-- If every element of `L` sharing `x`'s key is `x` itself, the key being
fresh means `emb x` reaches the output. -/
theorem mem_of_unique : ∀ (L : List α) (x : α) (w : List β) (ids : List Nat),
    x ∈ L → (∀ y ∈ L, key y = key x → y = x) → key x ∉ ids →
    emb x ∈ (L.foldl (dedupFold key emb) (w, ids)).1 := by
  intro L
  induction L with
  | nil => intro x w ids hx; simp at hx
  | cons y rest ih =>
    intro x w ids hx huniq hid
    simp only [List.foldl_cons]
    by_cases hxy : y = x
    · subst hxy
      unfold dedupFold
      split
      · exact absurd (by assumption) hid
      · exact fst_mono key emb rest _ _ _ (by simp)
    · have hky : key y ≠ key x := fun h => hxy (huniq y (by simp) h)
      have hx' : x ∈ rest := by
        rcases List.mem_cons.1 hx with h | h
        · exact absurd h.symm hxy
        · exact h
      unfold dedupFold
      split
      · exact ih x w ids hx' (fun z hz => huniq z (by simp [hz])) hid
      · refine ih x _ _ hx' (fun z hz => huniq z (by simp [hz])) ?_
        simp only [List.mem_append, List.mem_singleton]
        rintro (h | h)
        · exact hid h
        · exact hky h.symm

end DedupFold

namespace DedupFold

variable {α β : Type} (key : α → Nat) (emb : α → β)

/-- The seen-set fold computes exactly the first-occurrence sublist,
mapped through `emb`, after the already-seen keys are filtered away. -/
theorem fst_eq_firstByKey : ∀ (L : List α) (w : List β) (ids : List Nat),
    (L.foldl (dedupFold key emb) (w, ids)).1
      = w ++ (firstByKey key (L.filter fun y => decide (key y ∉ ids))).map emb := by
  intro L
  induction L with
  | nil => intro w ids; simp [firstByKey]
  | cons x rest ih =>
    intro w ids
    simp only [List.foldl_cons]
    by_cases hx : key x ∈ ids
    · rw [show dedupFold key emb (w, ids) x = (w, ids) by simp [dedupFold, hx]]
      rw [ih w ids]
      congr 2
      simp only [List.filter_cons]
      rw [if_neg (by simp [hx])]
    · rw [show dedupFold key emb (w, ids) x
          = (w ++ [emb x], ids ++ [key x]) by simp [dedupFold, hx]]
      rw [ih _ _]
      have hfil : rest.filter (fun y => decide (key y ∉ ids ++ [key x]))
          = (rest.filter fun y => decide (key y ∉ ids)).filter
              fun y => decide (key y ≠ key x) := by
        rw [List.filter_filter]
        refine List.filter_congr ?_
        intro a _
        simp only [List.mem_append, List.mem_singleton, decide_not,
          Bool.not_eq_true', decide_eq_false_iff_not, not_or, Bool.and_comm]
        by_cases h1 : key a ∈ ids <;> by_cases h2 : key a = key x <;>
          simp [h1, h2]
      rw [hfil]
      have hkeep : (x :: rest).filter (fun y => decide (key y ∉ ids))
          = x :: (rest.filter fun y => decide (key y ∉ ids)) := by
        simp only [List.filter_cons]
        rw [if_pos (by simp [hx])]
      rw [hkeep]
      simp [firstByKey, List.append_assoc]

/-- An element of the output is exactly once in it, provided its key is
unique to it in the input. -/
theorem count_of_unique [DecidableEq β] (keyb : β → Nat) (hke : ∀ x, keyb (emb x) = key x)
    (L : List α) (x : α) (hx : x ∈ L) (huniq : ∀ y ∈ L, key y = key x → y = x) :
    ((L.foldl (dedupFold key emb) ([], [])).1).count (emb x) = 1 := by
  have hmem : emb x ∈ (L.foldl (dedupFold key emb) ([], [])).1 :=
    mem_of_unique key emb L x [] [] hx huniq (by simp)
  have htr : (L.foldl (dedupFold key emb) ([], [])).2
      = (L.foldl (dedupFold key emb) ([], [])).1.map keyb :=
    snd_tracks key emb keyb hke L [] [] (by simp)
  have hnd : (L.foldl (dedupFold key emb) ([], [])).2.Nodup :=
    snd_nodup key emb L [] [] (by simp)
  rw [htr] at hnd
  exact List.count_eq_one_of_mem (List.Nodup.of_map keyb hnd) hmem

end DedupFold

/-! ### Characterising one round of the driver -/

theorem processResponse_pair (s : LoadState) (o : Option Response) :
    ((processResponse s o).wrs, (processResponse s o).timeIds)
      = (respData o).foldl (dedupFold RawRecord.id RawRecord.toRec) (s.wrs, s.timeIds) := by
  match o with
  | none => simp [processResponse, respData]
  | some r =>
    simp only [processResponse, respData]
    cases h : r.burstHeader with
    | none =>
      by_cases hd : r.data.length ≤ 0
      · have : r.data = [] := List.length_eq_zero.1 (Nat.le_zero.1 hd)
        simp [this]
      · simp [hd]
    | some n =>
      by_cases hd : r.data.length ≤ 0
      · have : r.data = [] := List.length_eq_zero.1 (Nat.le_zero.1 hd)
        by_cases hn : n < s.burstRemaining <;> simp [this, hn]
      · by_cases hn : n < s.burstRemaining <;> simp [hd, hn]

theorem processResponse_hasMore (s : LoadState) (o : Option Response) :
    (processResponse s o).hasMore = (s.hasMore && respAlive o) := by
  match o with
  | none => simp [processResponse, respAlive]
  | some r =>
    simp only [processResponse, respAlive]
    cases h : r.burstHeader with
    | none =>
      by_cases hd : r.data.length ≤ 0 <;> simp [hd]
    | some n =>
      by_cases hd : r.data.length ≤ 0 <;> by_cases hn : n < s.burstRemaining <;>
        simp [hd, hn]

theorem processResponse_page (s : LoadState) (o : Option Response) :
    (processResponse s o).page = s.page := by
  match o with
  | none => simp [processResponse]
  | some r =>
    simp only [processResponse]
    cases h : r.burstHeader with
    | none => by_cases hd : r.data.length ≤ 0 <;> simp [hd]
    | some n =>
      by_cases hd : r.data.length ≤ 0 <;> by_cases hn : n < s.burstRemaining <;>
        simp [hd, hn]

theorem processResponse_requested (s : LoadState) (o : Option Response) :
    (processResponse s o).requested = s.requested := by
  match o with
  | none => simp [processResponse]
  | some r =>
    simp only [processResponse]
    cases h : r.burstHeader with
    | none => by_cases hd : r.data.length ≤ 0 <;> simp [hd]
    | some n =>
      by_cases hd : r.data.length ≤ 0 <;> by_cases hn : n < s.burstRemaining <;>
        simp [hd, hn]

theorem processResponse_sleeps (s : LoadState) (o : Option Response) :
    (processResponse s o).sleeps = s.sleeps := by
  match o with
  | none => simp [processResponse]
  | some r =>
    simp only [processResponse]
    cases h : r.burstHeader with
    | none => by_cases hd : r.data.length ≤ 0 <;> simp [hd]
    | some n =>
      by_cases hd : r.data.length ≤ 0 <;> by_cases hn : n < s.burstRemaining <;>
        simp [hd, hn]

theorem processResponse_burst (s : LoadState) (o : Option Response) :
    (processResponse s o).burstRemaining
      = match o.bind Response.burstHeader with
        | some n => min n s.burstRemaining
        | none => s.burstRemaining := by
  match o with
  | none => simp [processResponse]
  | some r =>
    simp only [processResponse, Option.bind]
    cases h : r.burstHeader with
    | none => by_cases hd : r.data.length ≤ 0 <;> simp [h, hd]
    | some n =>
      have hmin : min n s.burstRemaining
          = if n < s.burstRemaining then n else s.burstRemaining := by
        rcases Nat.lt_or_ge n s.burstRemaining with hlt | hge
        · simp [Nat.min_eq_left (Nat.le_of_lt hlt), hlt]
        · simp [Nat.min_eq_right hge, Nat.not_lt.2 hge]
      by_cases hd : r.data.length ≤ 0 <;> by_cases hn : n < s.burstRemaining <;>
        simp [h, hd, hn, hmin]

theorem foldResp_pair (resps : List (Option Response)) (s : LoadState) :
    ((resps.foldl processResponse s).wrs, (resps.foldl processResponse s).timeIds)
      = ((resps.map respData).flatten).foldl (dedupFold RawRecord.id RawRecord.toRec)
          (s.wrs, s.timeIds) := by
  induction resps generalizing s with
  | nil => simp
  | cons o rest ih =>
    simp only [List.foldl_cons, List.map_cons, List.flatten_cons, List.foldl_append]
    rw [ih, processResponse_pair]

theorem foldResp_hasMore (resps : List (Option Response)) (s : LoadState) :
    (resps.foldl processResponse s).hasMore = (s.hasMore && resps.all respAlive) := by
  induction resps generalizing s with
  | nil => simp
  | cons o rest ih =>
    simp only [List.foldl_cons, List.all_cons]
    rw [ih, processResponse_hasMore, Bool.and_assoc]

theorem foldResp_page (resps : List (Option Response)) (s : LoadState) :
    (resps.foldl processResponse s).page = s.page := by
  induction resps generalizing s with
  | nil => simp
  | cons o rest ih => simp only [List.foldl_cons]; rw [ih, processResponse_page]

theorem foldResp_requested (resps : List (Option Response)) (s : LoadState) :
    (resps.foldl processResponse s).requested = s.requested := by
  induction resps generalizing s with
  | nil => simp
  | cons o rest ih => simp only [List.foldl_cons]; rw [ih, processResponse_requested]

theorem foldResp_sleeps (resps : List (Option Response)) (s : LoadState) :
    (resps.foldl processResponse s).sleeps = s.sleeps := by
  induction resps generalizing s with
  | nil => simp
  | cons o rest ih => simp only [List.foldl_cons]; rw [ih, processResponse_sleeps]

theorem foldResp_burst (resps : List (Option Response)) (s : LoadState) :
    (resps.foldl processResponse s).burstRemaining
      = (resps.filterMap (fun o => o.bind Response.burstHeader)).foldl
          (fun c n => min n c) s.burstRemaining := by
  induction resps generalizing s with
  | nil => simp
  | cons o rest ih =>
    simp only [List.foldl_cons, List.filterMap_cons]
    rw [ih, processResponse_burst]
    cases h : o.bind Response.burstHeader <;> simp [h]

theorem doRound_pair (source : Nat → Option Response) (s : LoadState) :
    ((doRound source s).wrs, (doRound source s).timeIds)
      = (roundData source s.page).foldl (dedupFold RawRecord.id RawRecord.toRec)
          (s.wrs, s.timeIds) := by
  have hfold := foldResp_pair ((burstPages s.page).map source)
    { s with page := s.page + 5, requested := s.requested ++ burstPages s.page }
  have hrd : (((burstPages s.page).map source).map respData).flatten
      = roundData source s.page := by
    simp [roundData, List.map_map, Function.comp_def]
  rw [hrd] at hfold
  simp only [doRound]
  split
  · exact hfold
  · split
    · exact hfold
    · exact hfold

theorem doRound_hasMore (source : Nat → Option Response) (s : LoadState) :
    (doRound source s).hasMore = (s.hasMore && roundAlive source s.page) := by
  have h := foldResp_hasMore ((burstPages s.page).map source)
    { s with page := s.page + 5, requested := s.requested ++ burstPages s.page }
  have hra : ∀ l : List Nat, (l.map source).all respAlive
      = l.all (fun p => respAlive (source p)) := by
    intro l
    induction l with
    | nil => rfl
    | cons a t ih => simp only [List.map_cons, List.all_cons, ih]
  have hra' : ((burstPages s.page).map source).all respAlive = roundAlive source s.page := by
    rw [hra]; rfl
  rw [hra'] at h
  simp only [doRound]
  split
  · exact h
  · split
    · exact h
    · exact h

theorem doRound_page (source : Nat → Option Response) (s : LoadState) :
    (doRound source s).page = s.page + 5 := by
  have h := foldResp_page ((burstPages s.page).map source)
    { s with page := s.page + 5, requested := s.requested ++ burstPages s.page }
  simp only [doRound]
  split
  · exact h
  · split
    · exact h
    · exact h

theorem doRound_requested (source : Nat → Option Response) (s : LoadState) :
    (doRound source s).requested = s.requested ++ burstPages s.page := by
  have h := foldResp_requested ((burstPages s.page).map source)
    { s with page := s.page + 5, requested := s.requested ++ burstPages s.page }
  simp only [doRound]
  split
  · exact h
  · split
    · exact h
    · exact h

theorem loadAllWRsAux_of_done (source : Nat → Option Response) (fuel : Nat)
    (s : LoadState) (h : s.hasMore = false) :
    loadAllWRsAux source fuel s = some s := by
  cases fuel <;> simp [loadAllWRsAux, h]

theorem burstPages_eq_range' (p : Nat) : burstPages p = List.range' p 5 := by
  simp [burstPages, List.range'_eq_map_range, List.range]

theorem loadAux_requested_inv (source : Nat → Option Response) :
    ∀ (fuel : Nat) (s t : LoadState), 1 ≤ s.page →
      s.requested = List.range' 1 (s.page - 1) →
      loadAllWRsAux source fuel s = some t →
      1 ≤ t.page ∧ t.requested = List.range' 1 (t.page - 1) := by
  intro fuel
  induction fuel with
  | zero =>
    intro s t hp hr h
    cases hm : s.hasMore with
    | true => simp [loadAllWRsAux, hm] at h
    | false =>
      simp only [loadAllWRsAux, hm, Bool.false_eq_true, if_false,
        Option.some.injEq] at h
      subst h
      exact ⟨hp, hr⟩
  | succ f ih =>
    intro s t hp hr h
    cases hm : s.hasMore with
    | false =>
      simp only [loadAllWRsAux, hm, Bool.false_eq_true, if_false,
        Option.some.injEq] at h
      subst h
      exact ⟨hp, hr⟩
    | true =>
      rw [loadAllWRsAux, if_pos (by simp [hm])] at h
      refine ih (doRound source s) t ?_ ?_ h
      · rw [doRound_page]; omega
      · rw [doRound_requested, doRound_page, hr, burstPages_eq_range']
        have e1 : 1 + 1 * (s.page - 1) = s.page := by omega
        have e2 : 5 + (s.page - 1) = s.page + 5 - 1 := by omega
        have h3 := List.range'_append 1 (s.page - 1) 5 1
        rw [e1, e2] at h3
        simpa using h3

/-- C8: within the pagination loop the page cursor is advanced by the
burst size unconditionally (whatever the five responses turn out to be),
and across a whole run the requested page numbers are exactly
`1 .. page-1`, each issued at most once — at-most-once delivery per page
per run, even when fetches fail. -/
theorem c8_cursor_unconditional_at_most_once (source : Nat → Option Response) :
    (∀ s : LoadState, (doRound source s).page = s.page + 5) ∧
    (∀ (fuel : Nat) (t : LoadState),
      loadAllWRsAux source fuel initState = some t →
      t.requested = List.range' 1 (t.page - 1) ∧ t.requested.Nodup) := by
  constructor
  · exact doRound_page source
  · intro fuel t h
    have := loadAux_requested_inv source fuel initState t (by simp [initState])
      (by simp [initState]) h
    exact ⟨this.2, this.2 ▸ List.nodup_range' 1 (t.page - 1)⟩

/-- Witness for C8 at a concrete one-round run. -/
theorem c8_witness :
    ∃ t, loadAllWRsAux sourceEmpty 1 initState = some t ∧
      t.requested = List.range' 1 (t.page - 1) ∧ t.requested.Nodup := by
  refine ⟨_, rfl, (c8_cursor_unconditional_at_most_once sourceEmpty).2 1 _ rfl⟩

theorem all_respAlive_map (source : Nat → Option Response) (l : List Nat) :
    (l.map source).all respAlive = l.all (fun p => respAlive (source p)) := by
  induction l with
  | nil => rfl
  | cons a t ih => simp only [List.map_cons, List.all_cons, ih]

theorem foldMin_le_init : ∀ (H : List Nat) (c : Nat),
    H.foldl (fun c n => min n c) c ≤ c := by
  intro H
  induction H with
  | nil => intro c; simp
  | cons m t ih =>
    intro c
    simp only [List.foldl_cons]
    exact le_trans (ih (min m c)) (Nat.min_le_right m c)

theorem foldMin_le_mem : ∀ (H : List Nat) (c m : Nat), m ∈ H →
    H.foldl (fun c n => min n c) c ≤ m := by
  intro H
  induction H with
  | nil => intro c m hm; simp at hm
  | cons a t ih =>
    intro c m hm
    simp only [List.foldl_cons]
    rcases List.mem_cons.1 hm with h | h
    · subst h
      exact le_trans (foldMin_le_init t (min m c)) (Nat.min_le_left m c)
    · exact ih (min a c) m h

theorem le_foldMin : ∀ (H : List Nat) (c x : Nat), x ≤ c → (∀ m ∈ H, x ≤ m) →
    x ≤ H.foldl (fun c n => min n c) c := by
  intro H
  induction H with
  | nil => intro c x hc _; simpa using hc
  | cons a t ih =>
    intro c x hc hall
    simp only [List.foldl_cons]
    refine ih (min a c) x (le_min (hall a (by simp)) hc) (fun m hm => hall m (by simp [hm]))

/-- C5: after a round that did not exhaust the source, if some response of
the round reported a burst capacity below 70 the driver sleeps for the
cooldown (one more logged sleep) and resets its tracker to the sentinel
999; otherwise it proceeds to the next round without sleeping.  The
hypothesis `70 ≤ s.burstRemaining` is the loop invariant: the tracker is
at least 70 at every round start (999 initially and after every reset). -/
theorem c5_rate_limit_backoff (source : Nat → Option Response) (s : LoadState)
    (hm : s.hasMore = true) (h70 : 70 ≤ s.burstRemaining)
    (halive : roundAlive source s.page = true) :
    ((∃ m ∈ roundHeaders source s.page, m < 70) →
      (doRound source s).sleeps = s.sleeps + 1 ∧
      (doRound source s).burstRemaining = 999) ∧
    ((∀ m ∈ roundHeaders source s.page, 70 ≤ m) →
      (doRound source s).sleeps = s.sleeps ∧
      70 ≤ (doRound source s).burstRemaining) := by
  have hs2m : (((burstPages s.page).map source).foldl processResponse
      { s with page := s.page + 5, requested := s.requested ++ burstPages s.page }).hasMore
        = true := by
    rw [foldResp_hasMore, all_respAlive_map]
    show (s.hasMore && roundAlive source s.page) = true
    simp [hm, halive]
  have hs2b : (((burstPages s.page).map source).foldl processResponse
      { s with page := s.page + 5, requested := s.requested ++ burstPages s.page }).burstRemaining
        = (roundHeaders source s.page).foldl (fun c n => min n c) s.burstRemaining := by
    rw [foldResp_burst]
    rfl
  have hs2s : (((burstPages s.page).map source).foldl processResponse
      { s with page := s.page + 5, requested := s.requested ++ burstPages s.page }).sleeps
        = s.sleeps := by
    rw [foldResp_sleeps]
  simp only [doRound]
  split
  · rename_i hcond
    rw [hs2m] at hcond
    simp at hcond
  · split
    · rename_i hlt
      rw [hs2b] at hlt
      constructor
      · intro _
        exact ⟨by simp [hs2s], rfl⟩
      · intro hall
        exact absurd (le_foldMin (roundHeaders source s.page) s.burstRemaining 70 h70 hall)
          (by omega)
    · rename_i hge
      rw [hs2b] at hge
      constructor
      · intro hex
        rcases hex with ⟨m, hmem, hmlt⟩
        exact absurd (foldMin_le_mem (roundHeaders source s.page) s.burstRemaining m hmem)
          (by omega)
      · intro _
        exact ⟨hs2s, by rw [hs2b]; omega⟩

/-- Witness for C5 at a concrete round whose minimum reported capacity is 10. -/
theorem c5_witness :
    (doRound sourceLow initState).sleeps = initState.sleeps + 1 ∧
    (doRound sourceLow initState).burstRemaining = 999 := by
  refine (c5_rate_limit_backoff sourceLow initState rfl (by decide) (by decide)).1 ?_
  exact ⟨10, by decide, by decide⟩

/-- C9: when one page of a burst resolves with zero records, the
non-empty pages of that same burst still contribute their records to the
collected batch; the exhaustion flag only stops further bursts. -/
theorem c9_exhaustion_does_not_discard (source : Nat → Option Response) (s : LoadState)
    (p q : Nat) (rp rq : Response) (r : RawRecord)
    (hp : p ∈ burstPages s.page) (hq : q ∈ burstPages s.page)
    (hrp : source p = some rp) (hrpE : rp.data = [])
    (hrq : source q = some rq) (hr : r ∈ rq.data)
    (hfresh : r.id ∉ s.timeIds)
    (hcons : ∀ b ∈ roundData source s.page, b.id = r.id → b = r) :
    (doRound source s).hasMore = false ∧
    r.toRec ∈ (doRound source s).wrs ∧
    (∀ fuel, loadAllWRsAux source fuel (doRound source s) = some (doRound source s)) := by
  have halive : roundAlive source s.page = false := by
    by_cases h : roundAlive source s.page = true
    · have h2 := List.all_eq_true.1 h p hp
      rw [hrp] at h2
      simp [respAlive, hrpE] at h2
    · simpa using h
  have hHM : (doRound source s).hasMore = false := by
    rw [doRound_hasMore, halive, Bool.and_false]
  refine ⟨hHM, ?_, fun fuel => loadAllWRsAux_of_done source fuel _ hHM⟩
  have hrmem : r ∈ roundData source s.page := by
    unfold roundData
    rw [List.mem_flatten]
    refine ⟨rq.data, List.mem_map.2 ⟨q, hq, by rw [hrq]; rfl⟩, hr⟩
  have hmem := DedupFold.mem_of_unique RawRecord.id RawRecord.toRec
    (roundData source s.page) r s.wrs s.timeIds hrmem hcons hfresh
  have hw : (doRound source s).wrs
      = ((roundData source s.page).foldl (dedupFold RawRecord.id RawRecord.toRec)
          (s.wrs, s.timeIds)).1 := congrArg Prod.fst (doRound_pair source s)
  rw [hw]
  exact hmem

/-- Witness for C9 on a concrete burst with an empty page 2 and a record
arriving on page 3. -/
theorem c9_witness :
    (doRound sourceDrain initState).hasMore = false ∧
    sampleRaw.toRec ∈ (doRound sourceDrain initState).wrs := by
  have h := c9_exhaustion_does_not_discard sourceDrain initState 2 3
    { burstHeader := none, data := [] }
    { burstHeader := none, data := [sampleRaw] } sampleRaw
    (by decide) (by decide) (by decide) rfl (by decide) (by decide) (by decide)
    (by decide)
  exact ⟨h.1, h.2.1⟩

/-- Main run lemma for an exhausting source: pages before `K` are
non-empty, pages from `K` on are empty; the loop then returns, having
dedup-folded exactly the payload of the pages before `K`. -/
theorem loadAux_run (source : Nat → Option Response) (K : Nat)
    (hbefore : ∀ p, 1 ≤ p → p < K → ∃ r, source p = some r ∧ r.data ≠ [])
    (hafter : ∀ p, K ≤ p → ∃ r, source p = some r ∧ r.data = []) :
    ∀ (fuel : Nat) (s : LoadState), s.hasMore = true → 1 ≤ s.page → s.page ≤ K →
      K < s.page + 5 * fuel →
      ∃ t, loadAllWRsAux source fuel s = some t ∧
        (t.wrs, t.timeIds) = (upTo source s.page (K - s.page)).foldl
          (dedupFold RawRecord.id RawRecord.toRec) (s.wrs, s.timeIds) := by
  intro fuel
  induction fuel with
  | zero => intro s _ _ h1 h2; omega
  | succ f ih =>
    intro s hm hp1 hpK hfuel
    rw [loadAllWRsAux, if_pos (by simp [hm])]
    by_cases hterm : K ≤ s.page + 4
    · -- the burst of this round contains page K: the round exhausts the source
      have hKmem : K ∈ burstPages s.page := by
        rw [burstPages_eq_range']
        exact List.mem_range'_1.2 ⟨hpK, by omega⟩
      obtain ⟨rK, hrK, hrKe⟩ := hafter K (le_refl K)
      have halive : roundAlive source s.page = false := by
        by_cases h : roundAlive source s.page = true
        · have h2 := List.all_eq_true.1 h K hKmem
          rw [hrK] at h2
          simp [respAlive, hrKe] at h2
        · simpa using h
      have hHM : (doRound source s).hasMore = false := by
        rw [doRound_hasMore, halive, Bool.and_false]
      refine ⟨doRound source s, loadAllWRsAux_of_done source f _ hHM, ?_⟩
      have hsplit : List.range' s.page 5
          = List.range' s.page (K - s.page) ++ List.range' K (5 - (K - s.page)) := by
        have h := List.range'_append s.page (K - s.page) (5 - (K - s.page)) 1
        have e1 : s.page + 1 * (K - s.page) = K := by omega
        have e2 : 5 - (K - s.page) + (K - s.page) = 5 := by omega
        rw [e1, e2] at h
        exact h.symm
      have hround : roundData source s.page = upTo source s.page (K - s.page) := by
        unfold roundData upTo
        rw [burstPages_eq_range', hsplit, List.map_append, List.flatten_append]
        have hnil : ((List.range' K (5 - (K - s.page))).map
            (fun p => respData (source p))).flatten = [] := by
          rw [List.flatten_eq_nil_iff]
          intro x hx
          rw [List.mem_map] at hx
          obtain ⟨p, hpmem, rfl⟩ := hx
          have hpge : K ≤ p := (List.mem_range'_1.1 hpmem).1
          obtain ⟨r, hr, hre⟩ := hafter p hpge
          simp [hr, respData, hre]
        rw [hnil, List.append_nil]
      rw [doRound_pair, hround]
    · -- every page of this burst is before K: the loop keeps going
      have halive : roundAlive source s.page = true := by
        rw [roundAlive, List.all_eq_true]
        intro p hpmem
        rw [burstPages_eq_range'] at hpmem
        have hb := List.mem_range'_1.1 hpmem
        obtain ⟨r, hr, hne⟩ := hbefore p (by omega) (by omega)
        rw [hr]
        simp only [respAlive, decide_eq_true_eq, Nat.not_le]
        exact List.length_pos.2 hne
      have hHM : (doRound source s).hasMore = true := by
        rw [doRound_hasMore, halive, hm]
        rfl
      have hpg : (doRound source s).page = s.page + 5 := doRound_page source s
      obtain ⟨t, ht, hpair⟩ := ih (doRound source s) hHM (by omega)
        (by rw [hpg]; omega) (by rw [hpg]; omega)
      refine ⟨t, ht, ?_⟩
      rw [hpair, hpg]
      have hsplit : List.range' s.page (K - s.page)
          = List.range' s.page 5 ++ List.range' (s.page + 5) (K - (s.page + 5)) := by
        have h := List.range'_append s.page 5 (K - (s.page + 5)) 1
        have e1 : s.page + 1 * 5 = s.page + 5 := by omega
        have e2 : K - (s.page + 5) + 5 = K - s.page := by omega
        rw [e1, e2] at h
        exact h.symm
      have hcat : upTo source s.page (K - s.page)
          = roundData source s.page ++ upTo source (s.page + 5) (K - (s.page + 5)) := by
        unfold upTo roundData
        rw [burstPages_eq_range', hsplit, List.map_append, List.flatten_append]
      rw [hcat, List.foldl_append, ← doRound_pair]

/-- C1: against a source whose pages before `K` are non-empty and whose
pages from `K` on are empty, `loadAllWRs` terminates (fuel `K` rounds
suffices) and the returned batch contains every record of pages
`1..K-1` exactly once, provided records agree on their identity
(`timeId` determines the record, the data model's identity axiom). -/
theorem c1_loadAllWRs_terminates_complete (source : Nat → Option Response) (K : Nat)
    (hK : 1 ≤ K)
    (hbefore : ∀ p, 1 ≤ p → p < K → ∃ r, source p = some r ∧ r.data ≠ [])
    (hafter : ∀ p, K ≤ p → ∃ r, source p = some r ∧ r.data = [])
    (hcons : ∀ a ∈ upTo source 1 (K - 1), ∀ b ∈ upTo source 1 (K - 1),
      a.id = b.id → a = b) :
    ∃ wrs, loadAllWRs source K = some wrs ∧
      ∀ r ∈ upTo source 1 (K - 1), wrs.count r.toRec = 1 := by
  obtain ⟨t, ht, hpair⟩ := loadAux_run source K hbefore hafter K initState rfl
    (le_refl 1) hK (by omega)
  refine ⟨t.wrs, by rw [loadAllWRs, ht]; rfl, ?_⟩
  intro r hr
  have hw : t.wrs = ((upTo source 1 (K - 1)).foldl
      (dedupFold RawRecord.id RawRecord.toRec) ([], [])).1 :=
    congrArg Prod.fst hpair
  rw [hw]
  exact DedupFold.count_of_unique RawRecord.id RawRecord.toRec Record.timeId
    (fun x => rfl) (upTo source 1 (K - 1)) r hr
    (fun y hy h => hcons y hy r hr h)

/-- Witness for C1: pages 1–2 non-empty, page 3 empty, K = 3. -/
theorem c1_witness :
    ∃ wrs, loadAllWRs sourceTwoPages 3 = some wrs ∧
      ∀ r ∈ upTo sourceTwoPages 1 2, wrs.count r.toRec = 1 := by
  have h := c1_loadAllWRs_terminates_complete sourceTwoPages 3 (by decide)
    ?_ ?_ ?_
  · exact h
  · intro p h1 h2
    interval_cases p
    · exact ⟨_, rfl, by decide⟩
    · exact ⟨_, rfl, by decide⟩
  · intro p h3
    refine ⟨{ burstHeader := none, data := [] }, ?_, rfl⟩
    simp only [sourceTwoPages]
    rw [if_neg (by omega), if_neg (by omega)]
  · have hup : upTo sourceTwoPages 1 (3 - 1) = [sampleRaw, sampleRaw2] := by rfl
    rw [hup]
    decide

theorem dedupFold_idem {α β : Type} (key : α → Nat) (emb : α → β)
    (acc : List β × List Nat) (x : α) :
    dedupFold key emb (dedupFold key emb acc x) x = dedupFold key emb acc x := by
  by_cases h : key x ∈ acc.2
  · simp [dedupFold, h]
  · simp [dedupFold, h]

/-- C4: the deduplicator keeps exactly the first occurrence of each
`timeId`, in arrival order (it equals the first-occurrence sublist mapped
into records); feeding the same record twice changes nothing over feeding
it once, and a twice-fed fresh record appears exactly once in the
output. -/
theorem c4_dedup_first_occurrence :
    (∀ L : List RawRecord,
      dedupRecords L = (firstByKey RawRecord.id L).map RawRecord.toRec) ∧
    (∀ (L : List RawRecord) (r : RawRecord),
      dedupRecords (L ++ [r, r]) = dedupRecords (L ++ [r])) ∧
    (∀ (L : List RawRecord) (r : RawRecord), r.id ∉ L.map RawRecord.id →
      (dedupRecords (L ++ [r, r])).count r.toRec = 1) := by
  refine ⟨?_, ?_, ?_⟩
  · intro L
    rw [dedupRecords, DedupFold.fst_eq_firstByKey]
    have hfil : (L.filter fun y => decide (RawRecord.id y ∉ ([] : List Nat))) = L := by
      simp
    rw [hfil]
    rfl
  · intro L r
    unfold dedupRecords
    rw [List.foldl_append, List.foldl_append]
    simp only [List.foldl_cons, List.foldl_nil]
    rw [dedupFold_idem]
  · intro L r hfresh
    unfold dedupRecords
    have huniq : ∀ y ∈ L ++ [r, r], RawRecord.id y = RawRecord.id r → y = r := by
      intro y hy hid
      rcases List.mem_append.1 hy with h | h
      · exact absurd (hid ▸ List.mem_map_of_mem RawRecord.id h) hfresh
      · rcases List.mem_cons.1 h with h2 | h2
        · exact h2
        · simpa using h2
    exact DedupFold.count_of_unique RawRecord.id RawRecord.toRec Record.timeId
      (fun x => rfl) (L ++ [r, r]) r (by simp) huniq

/-- Witness for C4 at a concrete twice-fed stream. -/
theorem c4_witness :
    dedupRecords [sampleRaw2, sampleRaw, sampleRaw]
        = (firstByKey RawRecord.id [sampleRaw2, sampleRaw, sampleRaw]).map RawRecord.toRec ∧
    dedupRecords [sampleRaw2, sampleRaw, sampleRaw] = dedupRecords [sampleRaw2, sampleRaw] ∧
    (dedupRecords [sampleRaw2, sampleRaw, sampleRaw]).count sampleRaw.toRec = 1 := by
  refine ⟨c4_dedup_first_occurrence.1 [sampleRaw2, sampleRaw, sampleRaw],
    c4_dedup_first_occurrence.2.1 [sampleRaw2] sampleRaw,
    c4_dedup_first_occurrence.2.2 [sampleRaw2] sampleRaw (by decide)⟩

/-- C10: the user-merge derivation passes at most one row per distinct
`userId` to the upsert (the key list of what it passes is duplicate-free),
and for a `userId` occurring several times the username written is the
one of the first record in batch order. -/
theorem c10_user_merge_first_username (wrs xs ys : List Record) (r : Record)
    (hsplit : wrs = xs ++ r :: ys)
    (hfirst : ∀ y ∈ xs, y.userId ≠ r.userId) :
    ((userRowsOf wrs).map UserRow.userId).Nodup ∧
    ({ userId := r.userId, username := r.username } : UserRow) ∈ userRowsOf wrs := by
  constructor
  · have htr := DedupFold.snd_tracks Record.userId
      (fun r => ({ userId := r.userId, username := r.username } : UserRow))
      UserRow.userId (fun x => rfl) wrs [] [] (by simp)
    have hnd := DedupFold.snd_nodup Record.userId
      (fun r => ({ userId := r.userId, username := r.username } : UserRow))
      wrs [] [] (by simp)
    rw [htr] at hnd
    exact hnd
  · subst hsplit
    exact DedupFold.mem_first Record.userId
      (fun r => ({ userId := r.userId, username := r.username } : UserRow))
      xs ys r [] [] (by simp) hfirst

/-- Witness for C10: the same user id appears with two usernames; the
first one is the row passed on. -/
theorem c10_witness :
    ((userRowsOf [sampleRaw.toRec, { sampleRaw2.toRec with userId := 7 }]).map
      UserRow.userId).Nodup ∧
    ({ userId := 7, username := "alice" } : UserRow)
      ∈ userRowsOf [sampleRaw.toRec, { sampleRaw2.toRec with userId := 7 }] := by
  have h := c10_user_merge_first_username
    [sampleRaw.toRec, { sampleRaw2.toRec with userId := 7 }]
    [] [{ sampleRaw2.toRec with userId := 7 }] sampleRaw.toRec rfl (by simp)
  exact h

/-- Counterexample to C6 as stated: a page-fetch failure does surface
past the Fetcher in refresh mode.  The fetch is contained into the `none`
marker, but `refreshWRs` then returns failure (`false`, so the process
exits non-zero): the failed single-page fetch aborts the run. -/
theorem c6_counterexample :
    tryGetRequest netFail 1 = none ∧
    refreshWRs emptyDb (tryGetRequest netFail) mapSrcNone thumbNone thumbNone 5
      = some (false, emptyDb) :=
  ⟨rfl, rfl⟩

/-- C6 (amended): a network/HTTP/timeout failure of a page fetch is
caught and becomes the explicit `none` marker (no exception escapes the
Fetcher); inside the pagination loop a failed page is skipped with the
driver state untouched; but in refresh mode the failure of the single
first-page fetch makes the run report failure (it is not contained at
run level), leaving the database unchanged. -/
theorem c6_soft_failure_contained (net : Nat → Except String Response)
    (p : Nat) (e : String) (he : net p = Except.error e) :
    tryGetRequest net p = none ∧
    (∀ s : LoadState, processResponse s (tryGetRequest net p) = s) ∧
    (p = 1 → ∀ (db : Db) (mapSrc : Nat → Option MapsResponse)
      (largeSrc smallSrc : List Nat → Option (List ThumbInfo)) (mapFuel : Nat),
      refreshWRs db (tryGetRequest net) mapSrc largeSrc smallSrc mapFuel
        = some (false, db)) := by
  have hnone : tryGetRequest net p = none := by
    unfold tryGetRequest
    rw [he]
  refine ⟨hnone, fun s => by rw [hnone]; rfl, ?_⟩
  rintro rfl db mapSrc largeSrc smallSrc mapFuel
  unfold refreshWRs
  rw [hnone]

/-- Witness for C6 (amended) at the always-failing network. -/
theorem c6_witness :
    tryGetRequest netFail 3 = none ∧
    (∀ s : LoadState, processResponse s (tryGetRequest netFail 3) = s) ∧
    (3 = 1 → ∀ (db : Db) (mapSrc : Nat → Option MapsResponse)
      (largeSrc smallSrc : List Nat → Option (List ThumbInfo)) (mapFuel : Nat),
      refreshWRs db (tryGetRequest netFail) mapSrc largeSrc smallSrc mapFuel
        = some (false, db)) :=
  c6_soft_failure_contained netFail 3 "timeout" rfl

/-- C3 is a code bug: when the map-catalog source fetch fails during a
refresh-mode reconciliation, `loadMaps` signals the failure by returning
the empty array, but the `if (!maps)` check in `updateMaps` can never
fire on an array value (arrays are truthy in JS), so the failure is NOT
propagated: `updateMaps` truncates the maps table, reports success, and
the record write is still attempted — against the spec, which requires
the run to fail with no record writes. -/
theorem c3_map_refresh_failure_not_propagated :
    loadMaps mapSrcNone thumbNone thumbNone 5 = some [] ∧
    jsArrayTruthy ([] : List MapRow) = true ∧
    updateMaps emptyDb mapSrcNone thumbNone thumbNone 5 = some (true, emptyDb) ∧
    refreshWRs emptyDb wrSource99 mapSrcNone thumbNone thumbNone 5
      = some (true, { users := [⟨7, "alice"⟩], maps := [],
                      globals := [rawRecord99.toRec] }) :=
  ⟨rfl, rfl, rfl, rfl⟩

/-! ### Foreign-key ordering of the reconciler -/

theorem userRowsOf_key_mem (wrs : List Record) (r : Record) (hr : r ∈ wrs) :
    r.userId ∈ (userRowsOf wrs).map UserRow.userId := by
  have htr := DedupFold.snd_tracks Record.userId
    (fun r => ({ userId := r.userId, username := r.username } : UserRow))
    UserRow.userId (fun x => rfl) wrs [] [] (by simp)
  have hk := DedupFold.key_mem Record.userId
    (fun r => ({ userId := r.userId, username := r.username } : UserRow))
    wrs [] [] r hr
  rw [htr] at hk
  exact hk

theorem upsertUserRow_key_sup (tbl : List UserRow) (u : UserRow) (k : Nat)
    (hk : k ∈ tbl.map UserRow.userId) :
    k ∈ (upsertUserRow tbl u).map UserRow.userId := by
  rcases List.mem_map.1 hk with ⟨v, hv, rfl⟩
  unfold upsertUserRow
  split
  · by_cases h : v.userId == u.userId
    · exact List.mem_map.2 ⟨_, List.mem_map_of_mem _ hv, by simp [h]⟩
    · exact List.mem_map.2 ⟨_, List.mem_map_of_mem _ hv, by simp [h]⟩
  · exact List.mem_map.2 ⟨v, by simp [hv], rfl⟩

theorem upsertUserRow_key_self (tbl : List UserRow) (u : UserRow) :
    u.userId ∈ (upsertUserRow tbl u).map UserRow.userId := by
  unfold upsertUserRow
  split
  · rename_i hany
    rcases List.any_eq_true.1 hany with ⟨v, hv, hvb⟩
    refine List.mem_map.2 ⟨{ userId := v.userId, username := u.username },
      List.mem_map.2 ⟨v, hv, by simp [hvb]⟩, ?_⟩
    simpa using hvb
  · exact List.mem_map.2 ⟨u, by simp, rfl⟩

theorem upsertUsers_key_sup (rows : List UserRow) : ∀ (tbl : List UserRow) (k : Nat),
    k ∈ tbl.map UserRow.userId → k ∈ (upsertUsers tbl rows).map UserRow.userId := by
  induction rows with
  | nil => intro tbl k hk; simpa [upsertUsers] using hk
  | cons u rest ih =>
    intro tbl k hk
    exact ih (upsertUserRow tbl u) k (upsertUserRow_key_sup tbl u k hk)

theorem upsertUsers_key_mem (rows : List UserRow) : ∀ (tbl : List UserRow) (u : UserRow),
    u ∈ rows → u.userId ∈ (upsertUsers tbl rows).map UserRow.userId := by
  induction rows with
  | nil => intro tbl u hu; simp at hu
  | cons v rest ih =>
    intro tbl u hu
    rcases List.mem_cons.1 hu with h | h
    · subst h
      exact upsertUsers_key_sup rest (upsertUserRow tbl u) u.userId
        (upsertUserRow_key_self tbl u)
    · exact ih (upsertUserRow tbl v) u h

theorem insertUsers_mem (users : List UserRow) (wrs : List Record) (r : Record)
    (hr : r ∈ wrs) : r.userId ∈ (insertUsers users wrs).map UserRow.userId := by
  have h1 := userRowsOf_key_mem wrs r hr
  rcases List.mem_map.1 h1 with ⟨u, hu, hueq⟩
  rw [← hueq]
  exact upsertUsers_key_mem (userRowsOf wrs) users u hu

theorem distinctMapIds_mem (wrs : List Record) (r : Record) (hr : r ∈ wrs) :
    r.mapId ∈ distinctMapIds wrs := by
  have htr := DedupFold.snd_tracks Record.mapId Record.mapId (fun n => n)
    (fun x => rfl) wrs [] [] (by simp)
  have hk := DedupFold.key_mem Record.mapId Record.mapId wrs [] [] r hr
  rw [htr] at hk
  simpa using hk

theorem distinctMapIds_nodup (wrs : List Record) : (distinctMapIds wrs).Nodup := by
  have hnd := DedupFold.snd_nodup Record.mapId Record.mapId wrs [] [] (by simp)
  have htr := DedupFold.snd_tracks Record.mapId Record.mapId (fun n => n)
    (fun x => rfl) wrs [] [] (by simp)
  rw [htr] at hnd
  simpa using hnd

/-- When the `wrsHaveMapsLoaded` row-count check passes and the maps
table respects its primary key, every map id referenced by the batch is
present in the maps table. -/
theorem mapsLoaded_all_mem (maps : List MapRow) (wrs : List Record)
    (hPK : (maps.map MapRow.id).Nodup)
    (hchk : wrsHaveMapsLoaded maps wrs = true) :
    ∀ r ∈ wrs, r.mapId ∈ maps.map MapRow.id := by
  intro r hr
  have hlen : (maps.filter
      (fun m => (distinctMapIds wrs).contains m.id)).length
        = (distinctMapIds wrs).length := by
    unfold wrsHaveMapsLoaded at hchk
    simpa using hchk
  have hFsub : (maps.filter (fun m => (distinctMapIds wrs).contains m.id)).Sublist maps :=
    List.filter_sublist maps
  have hFidsnd : ((maps.filter
      (fun m => (distinctMapIds wrs).contains m.id)).map MapRow.id).Nodup :=
    List.Nodup.sublist (List.Sublist.map MapRow.id hFsub) hPK
  have hFsubids : ∀ k ∈ (maps.filter
      (fun m => (distinctMapIds wrs).contains m.id)).map MapRow.id,
      k ∈ distinctMapIds wrs := by
    intro k hk
    rcases List.mem_map.1 hk with ⟨m, hm, rfl⟩
    have hf := List.of_mem_filter hm
    simpa using hf
  have hidnd : (distinctMapIds wrs).Nodup := distinctMapIds_nodup wrs
  have hcard1 : ((maps.filter
      (fun m => (distinctMapIds wrs).contains m.id)).map MapRow.id).toFinset.card
        = (distinctMapIds wrs).length := by
    rw [List.toFinset_card_of_nodup hFidsnd, List.length_map, hlen]
  have hcard2 : (distinctMapIds wrs).toFinset.card = (distinctMapIds wrs).length :=
    List.toFinset_card_of_nodup hidnd
  have hsubF : ((maps.filter
      (fun m => (distinctMapIds wrs).contains m.id)).map MapRow.id).toFinset
        ⊆ (distinctMapIds wrs).toFinset := by
    intro k hk
    exact List.mem_toFinset.2 (hFsubids k (List.mem_toFinset.1 hk))
  have heq := Finset.eq_of_subset_of_card_le hsubF (by rw [hcard1, hcard2])
  have hrid : r.mapId ∈ distinctMapIds wrs := distinctMapIds_mem wrs r hr
  have hmemF : r.mapId ∈ (maps.filter
      (fun m => (distinctMapIds wrs).contains m.id)).map MapRow.id := by
    have := heq ▸ List.mem_toFinset.2 hrid
    exact List.mem_toFinset.1 this
  rcases List.mem_map.1 hmemF with ⟨m, hm, hmid⟩
  rw [← hmid]
  exact List.mem_map_of_mem _ (List.mem_of_mem_filter hm)

theorem updateMaps_eq (db : Db) (mapSrc : Nat → Option MapsResponse)
    (largeSrc smallSrc : List Nat → Option (List ThumbInfo)) (mapFuel : Nat)
    (catalog : List MapRow)
    (h : loadMaps mapSrc largeSrc smallSrc mapFuel = some catalog) :
    updateMaps db mapSrc largeSrc smallSrc mapFuel
      = some (true, { db with maps := catalog }) := by
  unfold updateMaps
  rw [h]
  rfl

theorem refreshWRs_some (db : Db) (wrSource : Nat → Option Response)
    (mapSrc : Nat → Option MapsResponse)
    (largeSrc smallSrc : List Nat → Option (List ThumbInfo)) (mapFuel : Nat)
    (resp : Response) (hpage : wrSource 1 = some resp) :
    refreshWRs db wrSource mapSrc largeSrc smallSrc mapFuel
      = (if wrsHaveMapsLoaded db.maps (dedupRecords resp.data) then
          some (true, { db with
                          users := insertUsers db.users (dedupRecords resp.data),
                          globals := upsertGlobals db.globals (dedupRecords resp.data) })
        else
          match updateMaps { db with users := insertUsers db.users (dedupRecords resp.data) }
              mapSrc largeSrc smallSrc mapFuel with
          | none => none
          | some (false, db2) => some (false, db2)
          | some (true, db2) =>
              some (true, { db2 with
                globals := upsertGlobals db2.globals (dedupRecords resp.data) })) := by
  unfold refreshWRs
  rw [hpage]

/-- C2: in refresh mode, provided the batch's referenced maps are either
already in storage or delivered by the triggered full catalog refresh,
the run succeeds, the record write is exactly the batch upsert, and at
the moment of that write every referenced user id and map id is present
in the users and maps tables — the write order (users, then maps, then
records) keeps the foreign keys satisfied. -/
theorem c2_fk_ordering (db : Db) (wrSource : Nat → Option Response)
    (mapSrc : Nat → Option MapsResponse)
    (largeSrc smallSrc : List Nat → Option (List ThumbInfo)) (mapFuel : Nat)
    (resp : Response) (hpage : wrSource 1 = some resp)
    (hPK : (db.maps.map MapRow.id).Nodup)
    (hm : wrsHaveMapsLoaded db.maps (dedupRecords resp.data) = true ∨
      ∃ catalog, loadMaps mapSrc largeSrc smallSrc mapFuel = some catalog ∧
        ∀ r ∈ dedupRecords resp.data, r.mapId ∈ catalog.map MapRow.id) :
    ∃ dbf, refreshWRs db wrSource mapSrc largeSrc smallSrc mapFuel = some (true, dbf) ∧
      dbf.globals = upsertGlobals db.globals (dedupRecords resp.data) ∧
      (∀ r ∈ dedupRecords resp.data, r.userId ∈ dbf.users.map UserRow.userId) ∧
      (∀ r ∈ dedupRecords resp.data, r.mapId ∈ dbf.maps.map MapRow.id) := by
  have hred := refreshWRs_some db wrSource mapSrc largeSrc smallSrc mapFuel resp hpage
  by_cases hchk : wrsHaveMapsLoaded db.maps (dedupRecords resp.data) = true
  · rw [hred, if_pos hchk]
    refine ⟨_, rfl, rfl, ?_, ?_⟩
    · intro r hr
      exact insertUsers_mem db.users _ r hr
    · intro r hr
      exact mapsLoaded_all_mem db.maps _ hPK hchk r hr
  · rcases hm with h | ⟨catalog, hcat, hsup⟩
    · exact absurd h hchk
    · rw [hred, if_neg hchk,
        updateMaps_eq _ mapSrc largeSrc smallSrc mapFuel catalog hcat]
      refine ⟨_, rfl, rfl, ?_, ?_⟩
      · intro r hr
        exact insertUsers_mem db.users _ r hr
      · intro r hr
        exact hsup r hr

/-- Witness for C2 at a concrete refresh run whose referenced map is
present in storage. -/
theorem c2_witness :
    ∃ dbf, refreshWRs dbWithMap3 wrSourceOne mapSrcNone thumbNone thumbNone 5
        = some (true, dbf) ∧
      dbf.globals = upsertGlobals dbWithMap3.globals
        (dedupRecords [sampleRaw]) ∧
      (∀ r ∈ dedupRecords [sampleRaw], r.userId ∈ dbf.users.map UserRow.userId) ∧
      (∀ r ∈ dedupRecords [sampleRaw], r.mapId ∈ dbf.maps.map MapRow.id) :=
  c2_fk_ordering dbWithMap3 wrSourceOne mapSrcNone thumbNone thumbNone 5
    { burstHeader := none, data := [sampleRaw] } rfl (by decide)
    (Or.inl (by decide))

/-! ### Idempotence of the two write modes -/

theorem upsertGlobalRow_self (tbl : List Record) (r : Record)
    (hr : r ∈ tbl) (hnd : (tbl.map Record.timeId).Nodup) :
    upsertGlobalRow tbl r = tbl := by
  have hany : tbl.any (fun g => g.timeId == r.timeId) = true :=
    List.any_eq_true.2 ⟨r, hr, by simp⟩
  unfold upsertGlobalRow
  rw [if_pos hany]
  have hinj := List.inj_on_of_nodup_map hnd
  have hpt : ∀ g ∈ tbl, (if g.timeId == r.timeId then r else g) = g := by
    intro g hg
    by_cases h : g.timeId = r.timeId
    · rw [if_pos (by simp [h])]
      exact (hinj hg hr h).symm
    · rw [if_neg (by simp [h])]
  rw [List.map_congr_left hpt]
  simp

theorem upsertGlobals_self (B : List Record) : ∀ (tbl : List Record),
    (∀ r ∈ B, r ∈ tbl) → (tbl.map Record.timeId).Nodup →
    upsertGlobals tbl B = tbl := by
  induction B with
  | nil => intro tbl _ _; rfl
  | cons b rest ih =>
    intro tbl hmem hnd
    show upsertGlobals (upsertGlobalRow tbl b) rest = tbl
    rw [upsertGlobalRow_self tbl b (hmem b (by simp)) hnd]
    exact ih tbl (fun r hr => hmem r (by simp [hr])) hnd

theorem upsertGlobalRow_mem_pres (tbl : List Record) (u r : Record)
    (hr : r ∈ tbl) (ht : r.timeId ≠ u.timeId) (hk : mapKey r ≠ mapKey u) :
    r ∈ upsertGlobalRow tbl u := by
  unfold upsertGlobalRow
  split
  · exact List.mem_map.2 ⟨r, hr, by simp [ht]⟩
  · split
    · exact List.mem_map.2 ⟨r, hr, by simp [hk]⟩
    · exact List.mem_append_left _ hr

theorem upsertGlobalRow_mem_self (tbl : List Record) (u : Record) :
    u ∈ upsertGlobalRow tbl u := by
  unfold upsertGlobalRow
  split
  · rename_i hany
    rcases List.any_eq_true.1 hany with ⟨g, hg, hgb⟩
    exact List.mem_map.2 ⟨g, hg, by simp [hgb]⟩
  · split
    · rename_i hany2
      rcases List.any_eq_true.1 hany2 with ⟨g, hg, hgb⟩
      exact List.mem_map.2 ⟨g, hg, by simp [of_decide_eq_true hgb]⟩
    · exact List.mem_append_right _ (by simp)

theorem upsertGlobals_mem_pres (B : List Record) : ∀ (tbl : List Record) (r : Record),
    r ∈ tbl → (∀ u ∈ B, r.timeId ≠ u.timeId ∧ mapKey r ≠ mapKey u) →
    r ∈ upsertGlobals tbl B := by
  induction B with
  | nil => intro tbl r hr _; exact hr
  | cons u rest ih =>
    intro tbl r hr hsep
    show r ∈ upsertGlobals (upsertGlobalRow tbl u) rest
    refine ih (upsertGlobalRow tbl u) r ?_ (fun v hv => hsep v (by simp [hv]))
    exact upsertGlobalRow_mem_pres tbl u r hr (hsep u (by simp)).1 (hsep u (by simp)).2

theorem upsertGlobals_mem (B : List Record) : ∀ (tbl : List Record) (r : Record),
    r ∈ B → (B.map Record.timeId).Nodup → (B.map mapKey).Nodup →
    r ∈ upsertGlobals tbl B := by
  induction B with
  | nil => intro tbl r hr; simp at hr
  | cons b rest ih =>
    intro tbl r hr hnd1 hnd2
    simp only [List.map_cons, List.nodup_cons] at hnd1 hnd2
    rcases List.mem_cons.1 hr with h | h
    · subst h
      show r ∈ upsertGlobals (upsertGlobalRow tbl r) rest
      refine upsertGlobals_mem_pres rest (upsertGlobalRow tbl r) r
        (upsertGlobalRow_mem_self tbl r) ?_
      intro u hu
      constructor
      · intro he
        exact hnd1.1 (he ▸ List.mem_map_of_mem Record.timeId hu)
      · intro he
        exact hnd2.1 (he ▸ List.mem_map_of_mem mapKey hu)
    · exact ih (upsertGlobalRow tbl b) r h hnd1.2 hnd2.2

theorem dedupRecords_timeId_nodup (data : List RawRecord) :
    ((dedupRecords data).map Record.timeId).Nodup := by
  have htr := DedupFold.snd_tracks RawRecord.id RawRecord.toRec Record.timeId
    (fun x => rfl) data [] [] (by simp)
  have hnd := DedupFold.snd_nodup RawRecord.id RawRecord.toRec data [] [] (by simp)
  rw [htr] at hnd
  exact hnd

theorem updateMaps_none (db : Db) (mapSrc : Nat → Option MapsResponse)
    (largeSrc smallSrc : List Nat → Option (List ThumbInfo)) (mapFuel : Nat)
    (h : loadMaps mapSrc largeSrc smallSrc mapFuel = none) :
    updateMaps db mapSrc largeSrc smallSrc mapFuel = none := by
  unfold updateMaps
  rw [h]

theorem refreshWRs_true_globals (db : Db) (wrSource : Nat → Option Response)
    (mapSrc : Nat → Option MapsResponse)
    (largeSrc smallSrc : List Nat → Option (List ThumbInfo)) (mapFuel : Nat)
    (resp : Response) (db1 : Db) (hpage : wrSource 1 = some resp)
    (h : refreshWRs db wrSource mapSrc largeSrc smallSrc mapFuel = some (true, db1)) :
    db1.globals = upsertGlobals db.globals (dedupRecords resp.data) := by
  rw [refreshWRs_some db wrSource mapSrc largeSrc smallSrc mapFuel resp hpage] at h
  by_cases hchk : wrsHaveMapsLoaded db.maps (dedupRecords resp.data) = true
  · rw [if_pos hchk] at h
    simp only [Option.some.injEq, Prod.mk.injEq, true_and] at h
    rw [← h]
  · rw [if_neg hchk] at h
    cases hload : loadMaps mapSrc largeSrc smallSrc mapFuel with
    | none =>
      rw [updateMaps_none _ mapSrc largeSrc smallSrc mapFuel hload] at h
      simp at h
    | some catalog =>
      rw [updateMaps_eq _ mapSrc largeSrc smallSrc mapFuel catalog hload] at h
      simp only [Option.some.injEq, Prod.mk.injEq, true_and] at h
      rw [← h]

theorem seedWRs_eq (db : Db) (wrSource : Nat → Option Response) (wrFuel : Nat)
    (mapSrc : Nat → Option MapsResponse)
    (largeSrc smallSrc : List Nat → Option (List ThumbInfo)) (mapFuel : Nat)
    (catalog : List MapRow) (wrs : List Record)
    (hload : loadMaps mapSrc largeSrc smallSrc mapFuel = some catalog)
    (hwrs : loadAllWRs wrSource wrFuel = some wrs) :
    seedWRs db wrSource wrFuel mapSrc largeSrc smallSrc mapFuel
      = some (true, { users := insertUsers db.users wrs, maps := catalog,
                      globals := wrs }) := by
  unfold seedWRs
  rw [updateMaps_eq db mapSrc largeSrc smallSrc mapFuel catalog hload, hwrs]

theorem seedWRs_wrs_none (db : Db) (wrSource : Nat → Option Response) (wrFuel : Nat)
    (mapSrc : Nat → Option MapsResponse)
    (largeSrc smallSrc : List Nat → Option (List ThumbInfo)) (mapFuel : Nat)
    (catalog : List MapRow)
    (hload : loadMaps mapSrc largeSrc smallSrc mapFuel = some catalog)
    (hwrs : loadAllWRs wrSource wrFuel = none) :
    seedWRs db wrSource wrFuel mapSrc largeSrc smallSrc mapFuel = none := by
  unfold seedWRs
  rw [updateMaps_eq db mapSrc largeSrc smallSrc mapFuel catalog hload, hwrs]

theorem seedWRs_maps_none (db : Db) (wrSource : Nat → Option Response) (wrFuel : Nat)
    (mapSrc : Nat → Option MapsResponse)
    (largeSrc smallSrc : List Nat → Option (List ThumbInfo)) (mapFuel : Nat)
    (hload : loadMaps mapSrc largeSrc smallSrc mapFuel = none) :
    seedWRs db wrSource wrFuel mapSrc largeSrc smallSrc mapFuel = none := by
  unfold seedWRs
  rw [updateMaps_none db mapSrc largeSrc smallSrc mapFuel hload]

/-- C7: repeating a write with identical input leaves the store as if
done once.  Seed: two consecutive seed runs with the same sources store
identical record contents (the destructive truncate-then-insert replace
is idempotent).  Refresh: a second refresh with the same incoming batch
succeeds and leaves the globals table exactly as after the first (rows
updated in place, no duplicates), with the `timeId` primary key and the
`(mapId, game, style, course)` unique key still holding. -/
theorem c7_upsert_idempotent :
    (∀ (db db1 db2 : Db) (wrSource : Nat → Option Response) (wrFuel : Nat)
      (mapSrc : Nat → Option MapsResponse)
      (largeSrc smallSrc : List Nat → Option (List ThumbInfo)) (mapFuel : Nat),
      seedWRs db wrSource wrFuel mapSrc largeSrc smallSrc mapFuel = some (true, db1) →
      seedWRs db1 wrSource wrFuel mapSrc largeSrc smallSrc mapFuel = some (true, db2) →
      db2.globals = db1.globals) ∧
    (∀ (db db1 : Db) (wrSource : Nat → Option Response)
      (mapSrc : Nat → Option MapsResponse)
      (largeSrc smallSrc : List Nat → Option (List ThumbInfo)) (mapFuel : Nat)
      (resp : Response), wrSource 1 = some resp →
      refreshWRs db wrSource mapSrc largeSrc smallSrc mapFuel = some (true, db1) →
      ((dedupRecords resp.data).map mapKey).Nodup →
      (db1.globals.map Record.timeId).Nodup →
      (db1.globals.map mapKey).Nodup →
      wrsHaveMapsLoaded db1.maps (dedupRecords resp.data) = true →
      ∃ db2, refreshWRs db1 wrSource mapSrc largeSrc smallSrc mapFuel
          = some (true, db2) ∧
        db2.globals = db1.globals ∧
        (db2.globals.map Record.timeId).Nodup ∧
        (db2.globals.map mapKey).Nodup) := by
  constructor
  · intro db db1 db2 wrSource wrFuel mapSrc largeSrc smallSrc mapFuel h1 h2
    cases hload : loadMaps mapSrc largeSrc smallSrc mapFuel with
    | none =>
      rw [seedWRs_maps_none db wrSource wrFuel mapSrc largeSrc smallSrc mapFuel hload] at h1
      simp at h1
    | some catalog =>
      cases hwrs : loadAllWRs wrSource wrFuel with
      | none =>
        rw [seedWRs_wrs_none db wrSource wrFuel mapSrc largeSrc smallSrc mapFuel
          catalog hload hwrs] at h1
        simp at h1
      | some wrs =>
        rw [seedWRs_eq db wrSource wrFuel mapSrc largeSrc smallSrc mapFuel
          catalog wrs hload hwrs] at h1
        rw [seedWRs_eq db1 wrSource wrFuel mapSrc largeSrc smallSrc mapFuel
          catalog wrs hload hwrs] at h2
        simp only [Option.some.injEq, Prod.mk.injEq, true_and] at h1 h2
        rw [← h1, ← h2]
  · intro db db1 wrSource mapSrc largeSrc smallSrc mapFuel resp hpage h1 hbk hnd1 hnd2 hchk2
    have hg1 : db1.globals = upsertGlobals db.globals (dedupRecords resp.data) :=
      refreshWRs_true_globals db wrSource mapSrc largeSrc smallSrc mapFuel resp db1
        hpage h1
    have hmemB : ∀ r ∈ dedupRecords resp.data, r ∈ db1.globals := by
      rw [hg1]
      intro r hr
      exact upsertGlobals_mem (dedupRecords resp.data) db.globals r hr
        (dedupRecords_timeId_nodup resp.data) hbk
    have hid : upsertGlobals db1.globals (dedupRecords resp.data) = db1.globals :=
      upsertGlobals_self (dedupRecords resp.data) db1.globals hmemB hnd1
    refine ⟨{ db1 with
                users := insertUsers db1.users (dedupRecords resp.data),
                globals := upsertGlobals db1.globals (dedupRecords resp.data) },
      ?_, hid, ?_, ?_⟩
    · rw [refreshWRs_some db1 wrSource mapSrc largeSrc smallSrc mapFuel resp hpage,
        if_pos hchk2]
    · show ((upsertGlobals db1.globals (dedupRecords resp.data)).map Record.timeId).Nodup
      rw [hid]
      exact hnd1
    · show ((upsertGlobals db1.globals (dedupRecords resp.data)).map mapKey).Nodup
      rw [hid]
      exact hnd2

/-- Witness for C7: a concrete seed run repeated twice, and a concrete
refresh run repeated twice. -/
theorem c7_witness :
    seedDb1.globals = seedDb1.globals ∧
    (∃ db2, refreshWRs refDb1 wrSourceOne mapSrcNone thumbNone thumbNone 5
        = some (true, db2) ∧
      db2.globals = refDb1.globals ∧
      (db2.globals.map Record.timeId).Nodup ∧
      (db2.globals.map mapKey).Nodup) := by
  constructor
  · exact c7_upsert_idempotent.1 emptyDb seedDb1 seedDb1 sourceTwoPages 3
      mapSrcNone thumbNone thumbNone 5 rfl rfl
  · exact c7_upsert_idempotent.2 dbWithMap3 refDb1 wrSourceOne
      mapSrcNone thumbNone thumbNone 5 { burstHeader := none, data := [sampleRaw] }
      rfl rfl (by decide) (by decide) (by decide) (by decide)
